import Mathlib

set_option maxRecDepth 4000

/-!
Shallow embedding of the svg-load sources (src/path.rs, src/svgload.rs,
src/ttfload.rs, src/font.rs).  Floating-point scalars (f32 / f64) are
modelled by exact rationals; machine-integer narrowing is modelled with an
explicit `% 2 ^ w` or truncation where the source casts.  External
collaborators (usvg parsing, lyon tessellators, ttf-parser faces) are black
boxes in the source and enter the model as explicit oracle parameters.

The file is laid out as: all definitions first, then all lemmas and
theorems.
-/

/-- A 2-D point (an f32 / f64 pair in the source, modelled exactly). -/
abbrev Pt : Type := ℚ × ℚ

/-- usvg (svgtypes) affine transform with components a b c d e f. -/
structure Transform where
  a : ℚ
  b : ℚ
  c : ℚ
  d : ℚ
  e : ℚ
  f : ℚ
deriving DecidableEq

/-- `Transform::default()`: the identity transform. -/
def Transform.default : Transform := ⟨1, 0, 0, 1, 0, 0⟩

/-- `Transform::new_translate(x, y)`. -/
def Transform.new_translate (x y : ℚ) : Transform := ⟨1, 0, 0, 1, x, y⟩

/-- `Transform::new_scale(sx, sy)`. -/
def Transform.new_scale (sx sy : ℚ) : Transform := ⟨sx, 0, 0, sy, 0, 0⟩

/-- svgtypes `Transform::append`: `self` becomes `multiply(self, other)`. -/
def Transform.append (t1 t2 : Transform) : Transform :=
  ⟨t1.a * t2.a + t1.c * t2.b,
   t1.b * t2.a + t1.d * t2.b,
   t1.a * t2.c + t1.c * t2.d,
   t1.b * t2.c + t1.d * t2.d,
   t1.a * t2.e + t1.c * t2.f + t1.e,
   t1.b * t2.e + t1.d * t2.f + t1.f⟩

/-- svgtypes `Transform::apply` (also `apply_to`). -/
def Transform.apply (t : Transform) (x y : ℚ) : Pt :=
  (t.a * x + t.c * y + t.e, t.b * x + t.d * y + t.f)

/-- svgtypes `Transform::scale`: appends a scale matrix. -/
def Transform.scale (t : Transform) (sx sy : ℚ) : Transform :=
  t.append (Transform.new_scale sx sy)

/-- usvg::Color with u8 channels. -/
structure Color where
  red : ℕ
  green : ℕ
  blue : ℕ
deriving DecidableEq

/-- One usvg gradient stop; `offset.value()` and `opacity.value()` are the ℚ fields. -/
structure Stop where
  offset : ℚ
  color : Color
  opacity : ℚ
deriving DecidableEq

/-- usvg::LinearGradient: id, control points, local transform and stop list. -/
structure LinearGradient where
  id : String
  x1 : ℚ
  y1 : ℚ
  x2 : ℚ
  y2 : ℚ
  transform : Transform
  stops : List Stop
deriving DecidableEq

/-- usvg::Paint: flat colour or a reference (link) to a server such as a gradient. -/
inductive Paint where
| Color (col : Color) : Paint
| Link (id : String) : Paint
deriving DecidableEq

/-- One vertex of the produced mesh (src/path.rs `GpuVertex`). -/
structure GpuVertex where
  position : Pt
  prim_id : ℕ
deriving DecidableEq

/-- lyon `VertexBuffers<GpuVertex, u32>`. -/
structure VertexBuffers where
  vertices : List GpuVertex
  indices : List ℕ
deriving DecidableEq

/-- Raw tessellator output, before the vertex constructor maps each vertex. -/
structure RawBuffers where
  vertices : List Pt
  indices : List ℕ

/-- src/path.rs `RenderablePath`.  The `gradient_stops` field is a `u8` in the
source, so the value stored there is reduced mod 256 at the write site. -/
structure RenderablePath where
  size : ℕ × ℕ
  bgcolor : ℚ × ℚ × ℚ × ℚ
  gradient_stops : ℕ
  gradient_pos : Option (List ℚ)
  gradient_colors : Option (List (ℚ × ℚ × ℚ × ℚ))
  gradient_start : Option Pt
  gradient_end : Option Pt
  vertices : VertexBuffers
deriving DecidableEq

/-- src/path.rs `RenderablePath::from_color`. -/
def RenderablePath.from_color (size : ℕ × ℕ) (col : Color) (opacity : ℚ)
    (mesh : VertexBuffers) : RenderablePath :=
  { size := size
    bgcolor := ((col.red : ℚ) / 256, (col.green : ℚ) / 256, (col.blue : ℚ) / 256, opacity)
    gradient_stops := 0
    gradient_colors := none
    gradient_pos := none
    gradient_start := none
    gradient_end := none
    vertices := mesh }

/-- src/path.rs `RenderablePath::from_gradient`.  `g.stops.len() as u8` wraps
mod 256; `end` from the source is renamed `stopPt` (keyword). -/
def RenderablePath.from_gradient (size : ℕ × ℕ) (g : LinearGradient)
    (mesh : VertexBuffers) (transform : Transform) : RenderablePath :=
  let n := g.stops.length
  let t := g.transform.append transform
  let start := t.apply g.x1 g.y1
  let stopPt := t.apply g.x2 g.y2
  { size := size
    bgcolor := (1, 1, 1, 1)
    gradient_stops := n % 256
    gradient_colors := some (g.stops.map fun s =>
      ((s.color.red : ℚ) / 256, (s.color.green : ℚ) / 256, (s.color.blue : ℚ) / 256, s.opacity))
    gradient_pos := some (g.stops.map fun s => s.offset)
    gradient_start := some start
    gradient_end := some stopPt
    vertices := mesh }

/-- src/path.rs `RenderablePath::new`. -/
def RenderablePath.new (size : ℕ × ℕ) (mesh : VertexBuffers) : RenderablePath :=
  { size := size
    bgcolor := (1, 1, 1, 1)
    gradient_stops := 0
    gradient_colors := none
    gradient_pos := none
    gradient_start := none
    gradient_end := none
    vertices := mesh }

/-- The gradient dictionary `HashMap<String, LinearGradient>`, modelled as an
association list; `mapInsert` overwrites, `mapGet` looks up. -/
abbrev GradMap := List (String × LinearGradient)

def mapInsert (m : GradMap) (k : String) (v : LinearGradient) : GradMap :=
  (k, v) :: m.filter (fun kv => kv.1 != k)

def mapGet (m : GradMap) (k : String) : Option LinearGradient :=
  (m.find? (fun kv => kv.1 == k)).map (fun kv => kv.2)

/-- src/svgload.rs `primitive_from_paint`. -/
def primitive_from_paint (gradients : GradMap) (size : ℕ × ℕ) (opacity : ℚ)
    (mesh_s : VertexBuffers) (paint : Paint) (transform : Transform) : RenderablePath :=
  match paint with
  | .Color col => RenderablePath.from_color size col opacity mesh_s
  | .Link link =>
    match mapGet gradients link with
    | some grad => RenderablePath.from_gradient size grad mesh_s transform
    | none => RenderablePath.new size mesh_s

/-- The empty mesh, used as a concrete input by several witnesses. -/
def mesh0 : VertexBuffers := ⟨[], []⟩

/-- A concrete registered gradient used by the C7 witness. -/
def grad1 : LinearGradient :=
  { id := "g1"
    x1 := 0
    y1 := 0
    x2 := 1
    y2 := 0
    transform := Transform.new_translate 2 3
    stops := [⟨0, ⟨255, 0, 0⟩, 1⟩, ⟨1, ⟨0, 0, 255⟩, 1⟩] }

/-- A gradient with 256 stops, exercising the u8 wrap in C10. -/
def gradBig : LinearGradient :=
  { id := "gBig"
    x1 := 0
    y1 := 0
    x2 := 1
    y2 := 0
    transform := Transform.default
    stops := List.replicate 256 ⟨0, ⟨0, 0, 0⟩, 1⟩ }

/-! ## Path-segment normalisation (src/svgload.rs `PathConvIter`) -/

/-- usvg::PathSegment. -/
inductive PathSegment where
| MoveTo (x y : ℚ) : PathSegment
| LineTo (x y : ℚ) : PathSegment
| CurveTo (x1 y1 x2 y2 x y : ℚ) : PathSegment
| ClosePath : PathSegment
deriving DecidableEq

/-- lyon PathEvent (the drawing-event alphabet produced by the normalisers). -/
inductive PathEvent where
| Begin (p : Pt) : PathEvent
| Line (fromP toP : Pt) : PathEvent
| Quadratic (fromP ctrl toP : Pt) : PathEvent
| Cubic (fromP ctrl1 ctrl2 toP : Pt) : PathEvent
| End (last first : Pt) (close : Bool) : PathEvent
deriving DecidableEq

/-- The mutable fields of `PathConvIter` other than the input iterator and the
deferred slot.  The deferred slot only staggers emission across `next()`
calls; the flattened output below is the same event sequence. -/
structure ConvState where
  prev : Pt
  first : Pt
  needs_end : Bool
deriving DecidableEq

/-- One input segment of `PathConvIter::next`, returning the updated state and
the events emitted for that segment (a deferred `Begin` is flattened in
after the `End` that precedes it). -/
def stepSeg (s : ConvState) : PathSegment → ConvState × List PathEvent
| .MoveTo x y =>
    if s.needs_end then
      (⟨(x, y), (x, y), false⟩,
       [PathEvent.End s.prev s.first false, PathEvent.Begin (x, y)])
    else
      (⟨s.prev, (x, y), true⟩, [PathEvent.Begin (x, y)])
| .LineTo x y => (⟨(x, y), s.first, true⟩, [PathEvent.Line s.prev (x, y)])
| .CurveTo x1 y1 x2 y2 x y =>
    (⟨(x, y), s.first, true⟩, [PathEvent.Cubic s.prev (x1, y1) (x2, y2) (x, y)])
| .ClosePath => (⟨s.first, s.first, false⟩, [PathEvent.End s.first s.first true])

/-- End-of-input behaviour of `PathConvIter::next` (the `None` arm). -/
def flushConv (s : ConvState) : List PathEvent :=
  if s.needs_end then [PathEvent.End s.prev s.first false] else []

/-- Run the iterator to exhaustion from a given state. -/
def runSegs : ConvState → List PathSegment → List PathEvent
| s, [] => flushConv s
| s, seg :: rest => (stepSeg s seg).2 ++ runSegs (stepSeg s seg).1 rest

/-- src/svgload.rs `convert_path`: initial state has prev = first = (0,0) and
needs_end = false. -/
def convert_path (data : List PathSegment) : List PathEvent :=
  runSegs ⟨(0, 0), (0, 0), false⟩ data

def isBeginEv : PathEvent → Bool
| .Begin _ => true
| _ => false

def isEndEv : PathEvent → Bool
| .End _ _ _ => true
| _ => false

/-- The close flag of an End event (false for every other event). -/
def closeFlag : PathEvent → Bool
| .End _ _ c => c
| _ => false

def isMoveSeg : PathSegment → Bool
| .MoveTo _ _ => true
| _ => false

def isCloseSeg : PathSegment → Bool
| .ClosePath => true
| _ => false

/-- A drawing segment: LineTo or CurveTo. -/
def isDrawSeg : PathSegment → Bool
| .LineTo _ _ => true
| .CurveTo _ _ _ _ _ _ => true
| _ => false

def countBegins (l : List PathEvent) : ℕ := l.countP isBeginEv

def countEnds (l : List PathEvent) : ℕ := l.countP isEndEv

/-- Adjacent-pair relation: at least one of the two events is not a Begin. -/
def notTwoBegins (a b : PathEvent) : Prop := isBeginEv a = false ∨ isBeginEv b = false

/-- No two Begin events are adjacent in the list. -/
def noAdjBegins (l : List PathEvent) : Prop := List.Chain' notTwoBegins l

/-- A subpath block: a MoveTo target plus the drawing segments that follow it
before the next MoveTo. -/
abbrev Block := Pt × List PathSegment

/-- Flatten a block list into the segment stream it denotes. -/
def flattenBlocks : List Block → List PathSegment
| [] => []
| (p, ds) :: bs => PathSegment.MoveTo p.1 p.2 :: (ds ++ flattenBlocks bs)

/-- Well-formed blocks: every block has at least one segment after its MoveTo
and all of them are drawing segments (no ClosePath, no empty subpath). -/
def WFBlocks (bs : List Block) : Prop :=
  ∀ b ∈ bs, b.2 ≠ [] ∧ ∀ s ∈ b.2, isDrawSeg s = true

/-- Concrete well-formed blocks for the C4 witness. -/
def c4blocks : List Block :=
  [((0, 0), [PathSegment.LineTo 1 1]), ((2, 2), [PathSegment.LineTo 3 3])]

/-! ## The ttf outline normaliser (src/ttfload.rs `Builder`) -/

/-- ttf_parser::Rect (i16 coordinates). -/
structure Rect where
  x_min : ℤ
  y_min : ℤ
  x_max : ℤ
  y_max : ℤ
deriving DecidableEq

/-- src/ttfload.rs `Builder`: accumulates the drawing events in `vec`. -/
structure Builder where
  vec : List PathEvent
  needs_end : Bool
  prev : Pt
  first : Pt
  bbbox : Rect
deriving DecidableEq

/-- `Builder::new()`. -/
def Builder.new : Builder :=
  { vec := []
    first := (0, 0)
    prev := (0, 0)
    needs_end := false
    bbbox := ⟨0, 0, 0, 0⟩ }

/-- `Builder::move_to` (ttf OutlineBuilder callback).  Note that the branch
taken when no subpath is open updates `first` and `needs_end` but leaves
`prev` unchanged. -/
def Builder.move_to (b : Builder) (x y : ℚ) : Builder :=
  if b.needs_end then
    { b with
      needs_end := false
      prev := (x, y)
      first := (x, y)
      vec := b.vec ++ [PathEvent.End b.prev b.first false, PathEvent.Begin (x, y)] }
  else
    { b with
      first := (x, y)
      needs_end := true
      vec := b.vec ++ [PathEvent.Begin (x, y)] }

/-- `Builder::line_to`. -/
def Builder.line_to (b : Builder) (x y : ℚ) : Builder :=
  { b with
    needs_end := true
    prev := (x, y)
    vec := b.vec ++ [PathEvent.Line b.prev (x, y)] }

/-- `Builder::quad_to`. -/
def Builder.quad_to (b : Builder) (x1 y1 x y : ℚ) : Builder :=
  { b with
    needs_end := true
    prev := (x, y)
    vec := b.vec ++ [PathEvent.Quadratic b.prev (x1, y1) (x, y)] }

/-- `Builder::curve_to`. -/
def Builder.curve_to (b : Builder) (x1 y1 x2 y2 x y : ℚ) : Builder :=
  { b with
    needs_end := true
    prev := (x, y)
    vec := b.vec ++ [PathEvent.Cubic b.prev (x1, y1) (x2, y2) (x, y)] }

/-- `Builder::close`. -/
def Builder.close (b : Builder) : Builder :=
  { b with
    needs_end := false
    prev := b.first
    vec := b.vec ++ [PathEvent.End b.first b.first true] }

/-! ## Document traversal (src/svgload.rs `load_svg`) -/

/-- usvg::Fill (paint plus opacity). -/
structure Fill where
  paint : Paint
  opacity : ℚ
deriving DecidableEq

/-- usvg::LineCap. -/
inductive UsvgLineCap where
| Butt
| Square
| Round
deriving DecidableEq

/-- usvg::LineJoin. -/
inductive UsvgLineJoin where
| Miter
| Bevel
| Round
deriving DecidableEq

/-- lyon LineCap. -/
inductive LineCap where
| Butt
| Square
| Round
deriving DecidableEq

/-- lyon LineJoin. -/
inductive LineJoin where
| Miter
| Bevel
| Round
deriving DecidableEq

/-- usvg::Stroke (the fields the source reads). -/
structure Stroke where
  paint : Paint
  opacity : ℚ
  width : ℚ
  linecap : UsvgLineCap
  linejoin : UsvgLineJoin
deriving DecidableEq

/-- lyon FillOptions (the tolerance is all the source sets). -/
structure FillOptions where
  tolerance : ℚ
deriving DecidableEq

/-- lyon StrokeOptions (the fields the source sets). -/
structure StrokeOptions where
  tolerance : ℚ
  line_width : ℚ
  line_cap : LineCap
  line_join : LineJoin
deriving DecidableEq

/-- lyon `StrokeOptions::with_tolerance`. -/
def StrokeOptions.with_tolerance (o : StrokeOptions) (t : ℚ) : StrokeOptions :=
  { o with tolerance := t }

/-- src/svgload.rs `convert_stroke`. -/
def convert_stroke (s : Stroke) : StrokeOptions :=
  let linecap := match s.linecap with
    | UsvgLineCap.Butt => LineCap.Butt
    | UsvgLineCap.Square => LineCap.Square
    | UsvgLineCap.Round => LineCap.Round
  let linejoin := match s.linejoin with
    | UsvgLineJoin.Miter => LineJoin.Miter
    | UsvgLineJoin.Bevel => LineJoin.Bevel
    | UsvgLineJoin.Round => LineJoin.Round
  { tolerance := 1 / 10
    line_width := s.width
    line_cap := linecap
    line_join := linejoin }

/-- usvg::Path: own transform, optional fill and stroke, segment data. -/
structure SvgPath where
  transform : Transform
  fill : Option Fill
  stroke : Option Stroke
  data : List PathSegment
deriving DecidableEq

/-- The view-box data of the root Svg node that load_svg reads. -/
structure SvgData where
  width : ℚ
  height : ℚ
  vx : ℚ
  vy : ℚ
  vw : ℚ
  vh : ℚ
deriving DecidableEq

/-- usvg::NodeKind, restricted to the payloads load_svg reads. -/
inductive NodeKind where
| Svg (s : SvgData)
| Defs
| LinearGradient (g : LinearGradient)
| RadialGradient
| ClipPath
| Mask
| Pattern
| Filter
| Path (p : SvgPath)
| Image
| Group (transform : Transform)

mutual
/-- A node of the scene tree (rctree node with its NodeKind payload). -/
inductive SvgNode where
| mk : NodeKind → SvgForest → SvgNode
/-- A sibling list of scene-tree nodes. -/
inductive SvgForest where
| nil : SvgForest
| cons : SvgNode → SvgForest → SvgForest
end

/-- rctree NodeEdge: Start on entering a node, End on leaving it. -/
inductive NodeEdge where
| Start (k : NodeKind)
| End (k : NodeKind)

mutual
/-- rctree `traverse()`: the depth-first Start/End edge sequence of a node. -/
def traverseEdges : SvgNode → List NodeEdge
| .mk k cs => NodeEdge.Start k :: (traverseForest cs ++ [NodeEdge.End k])
/-- Edge sequence of a sibling list. -/
def traverseForest : SvgForest → List NodeEdge
| .nil => []
| .cons n f => traverseEdges n ++ traverseForest f
end

/-- 1 for a viewport (Svg) node kind, else 0. -/
def svgInc : NodeKind → ℕ
| .Svg _ => 1
| _ => 0

/-- 1 for a node kind whose Start pushes a transform (Svg or Group), else 0. -/
def pushInc : NodeKind → ℕ
| .Svg _ => 1
| .Group _ => 1
| _ => 0

/-- 1 for a node kind whose End pops a transform (Group only), else 0. -/
def groupDec : NodeKind → ℕ
| .Group _ => 1
| _ => 0

mutual
/-- Number of viewport (Svg) nodes in a tree. -/
def countSvgNode : SvgNode → ℕ
| .mk k cs => svgInc k + countSvgForest cs
/-- Number of viewport (Svg) nodes in a sibling list. -/
def countSvgForest : SvgForest → ℕ
| .nil => 0
| .cons n f => countSvgNode n + countSvgForest f
end

/-- Rust `as u32` cast of an f64: truncation toward zero with saturation. -/
def f64ToU32 (x : ℚ) : ℕ := min 4294967295 (Int.toNat ⌊x⌋)

/-- The mutable state of the load_svg loop: gradient dictionary, output
primitives, document size, transform stack. -/
structure LoadState where
  gradients : GradMap
  primitives : List RenderablePath
  size : ℕ × ℕ
  transforms : List Transform

/-- The state before the loop: empty dictionary and output, size (1,1),
empty transform stack. -/
def initLoadState : LoadState := ⟨[], [], (1, 1), []⟩

/-- The view-box normalisation transform built on entering the Svg node:
translate by the negative view-box origin, append scale (1/w, -1/h), then
add 1 to the `f` component. -/
def viewTransform (s : SvgData) : Transform :=
  let view := (Transform.new_translate (-s.vx) (-s.vy)).append
    (Transform.new_scale (1 / s.vw) (-(1 / s.vh)))
  { view with f := view.f + 1 }

/-- The tessellators, as oracles: they consume the drawing-event stream and
options and yield raw buffers (lyon FillTessellator / StrokeTessellator). -/
structure Tessellators where
  fillTess : List PathEvent → FillOptions → RawBuffers
  strokeTess : List PathEvent → StrokeOptions → RawBuffers

/-- BuffersBuilder with VertexCtor: each raw vertex position is mapped
through the composed transform and tagged with the caller's prim_id. -/
def buildMesh (raw : RawBuffers) (prim_id : ℕ) (transform : Transform) : VertexBuffers :=
  { vertices := raw.vertices.map (fun q =>
      { position := transform.apply q.1 q.2, prim_id := prim_id })
    indices := raw.indices }

/-- The Path arm of the load_svg match on a Start edge: compose the active
transform stack plus the node transform, tessellate the fill (prim_id is the
current output length), then, if a stroke exists, tessellate it (prim_id is
still the same output length) and push stroke then fill. -/
def path_start (tess : Tessellators) (st : LoadState) (p : SvgPath) : LoadState :=
  let transform := (st.transforms.foldl Transform.append Transform.default).append p.transform
  match p.fill with
  | none => st
  | some fill =>
    let mesh := buildMesh (tess.fillTess (convert_path p.data) ⟨1 / 10⟩)
      st.primitives.length transform
    match p.stroke with
    | none =>
      { st with primitives := st.primitives
          ++ [primitive_from_paint st.gradients st.size fill.opacity mesh fill.paint transform] }
    | some stroke =>
      let mesh_s := buildMesh (tess.strokeTess (convert_path p.data)
          ((convert_stroke stroke).with_tolerance (1 / 10))) st.primitives.length transform
      let stroke_p := primitive_from_paint st.gradients st.size stroke.opacity mesh_s
        stroke.paint transform
      let st2 : LoadState := { st with primitives := st.primitives ++ [stroke_p] }
      let fill_p := primitive_from_paint st2.gradients st2.size fill.opacity mesh
        fill.paint transform
      { st2 with primitives := st2.primitives ++ [fill_p] }

/-- The match body of the load_svg loop for one node kind, with `start`
telling a Start edge from an End edge. -/
def stepKind (tess : Tessellators) (st : LoadState) (start : Bool) : NodeKind → LoadState
| .Svg s =>
  if start then
    { st with
      size := (f64ToU32 s.width, f64ToU32 s.height)
      transforms := st.transforms ++ [viewTransform s] }
  else st
| .Defs => st
| .LinearGradient g =>
  if start then { st with gradients := mapInsert st.gradients g.id g } else st
| .RadialGradient => st
| .ClipPath => st
| .Mask => st
| .Pattern => st
| .Filter => st
| .Path p => if start then path_start tess st p else st
| .Image => st
| .Group t =>
  if start then { st with transforms := st.transforms ++ [t] }
  else { st with transforms := st.transforms.dropLast }

/-- One iteration of the load_svg for-loop over a node edge. -/
def stepEdge (tess : Tessellators) (st : LoadState) : NodeEdge → LoadState
| .Start k => stepKind tess st true k
| .End k => stepKind tess st false k

/-- The state after the whole load_svg traversal. -/
def load_svg_final (tess : Tessellators) (root : SvgNode) : LoadState :=
  List.foldl (stepEdge tess) initLoadState (traverseEdges root)

/-- src/svgload.rs `load_svg` (file reading and parsing are the black-box
front end; the model starts from the parsed tree): returns the primitives. -/
def load_svg (tess : Tessellators) (root : SvgNode) : List RenderablePath :=
  (load_svg_final tess root).primitives

/-- Concrete tessellator oracles: three fill vertices, two stroke vertices. -/
def exTess : Tessellators :=
  { fillTess := fun _ _ => ⟨[(0, 0), (1, 0), (0, 1)], [0, 1, 2]⟩
    strokeTess := fun _ _ => ⟨[(0, 0), (2, 0)], [0, 1]⟩ }

/-- A unit view box. -/
def svgData0 : SvgData := ⟨1, 1, 0, 0, 1, 1⟩

/-- A path with both a fill paint and a stroke paint. -/
def pathFS : SvgPath :=
  { transform := Transform.default
    fill := some ⟨Paint.Color ⟨255, 0, 0⟩, 1⟩
    stroke := some ⟨Paint.Color ⟨0, 0, 255⟩, 1, 2, UsvgLineCap.Butt, UsvgLineJoin.Miter⟩
    data := [PathSegment.MoveTo 0 0, PathSegment.LineTo 1 0, PathSegment.LineTo 0 1,
      PathSegment.ClosePath] }

/-- A one-path document whose path has both fill and stroke. -/
def treeFS : SvgNode :=
  SvgNode.mk (NodeKind.Svg svgData0)
    (SvgForest.cons (SvgNode.mk (NodeKind.Path pathFS) SvgForest.nil) SvgForest.nil)

/-- A document that is just the Svg root. -/
def treeSvgOnly : SvgNode := SvgNode.mk (NodeKind.Svg svgData0) SvgForest.nil

/-- A stroke-only path (no fill paint). -/
def pathStrokeOnly : SvgPath :=
  { transform := Transform.default
    fill := none
    stroke := some ⟨Paint.Color ⟨0, 0, 0⟩, 1, 1, UsvgLineCap.Butt, UsvgLineJoin.Miter⟩
    data := [PathSegment.MoveTo 0 0, PathSegment.LineTo 1 1] }

/-! ## Font loading (src/ttfload.rs `load_font`, src/font.rs) -/

/-- src/ttfload.rs `FONT_SIZE`. -/
def FONT_SIZE : ℚ := 1

/-- One glyph outline callback command fed by `Face::outline_glyph`. -/
inductive OutlineCmd where
| MoveTo (x y : ℚ)
| LineTo (x y : ℚ)
| QuadTo (x1 y1 x y : ℚ)
| CurveTo (x1 y1 x2 y2 x y : ℚ)
| Close

/-- Feed a command list through the Builder outline callbacks. -/
def Builder.runCmds (b : Builder) : List OutlineCmd → Builder
| [] => b
| c :: rest =>
  (match c with
   | .MoveTo x y => b.move_to x y
   | .LineTo x y => b.line_to x y
   | .QuadTo x1 y1 x y => b.quad_to x1 y1 x y
   | .CurveTo x1 y1 x2 y2 x y => b.curve_to x1 y1 x2 y2 x y
   | .Close => b.close).runCmds rest

/-- ttf_parser Face, as an oracle record of everything load_font reads. -/
structure Face where
  units_per_em : ℕ
  glyph_index : Char → Option ℕ
  glyph_raster_image : ℕ → Bool
  glyph_svg_image : ℕ → Bool
  outline_glyph : ℕ → Option (List OutlineCmd × Rect)
  glyph_y_origin : ℕ → Option ℤ
  glyph_hor_advance : ℕ → Option ℕ
  ascender : ℤ
  descender : ℤ
  line_gap : ℤ

/-- src/ttfload.rs `Builder::build`: run the outline callbacks and record the
returned bounding box; error (InvalidSize) when the glyph has no outline. -/
def Builder.build (b : Builder) (face : Face) (glyph_id : ℕ) : Option Builder :=
  match face.outline_glyph glyph_id with
  | none => none
  | some (cmds, rect) => some { b.runCmds cmds with bbbox := rect }

/-- src/font.rs `Glyph`. -/
structure Glyph where
  advance : ℚ
  bbox : ℚ × ℚ × ℚ × ℚ
  outline : VertexBuffers

/-- src/font.rs `Font`.  The glyph map (a HashMap keyed by code point in the
source, with unspecified iteration order) is an association list here. -/
structure Font where
  name : String
  ascender : ℚ
  descender : ℚ
  line_gap : ℚ
  glyph_map : List (ℕ × Glyph)

/-- The fill tessellator oracle reused for glyphs. -/
abbrev FontTess := List PathEvent → FillOptions → RawBuffers

/-- HashMap<u32, GlyphId> insert: one entry per key, overwriting. -/
def natMapInsert (m : List (ℕ × ℕ)) (k v : ℕ) : List (ℕ × ℕ) :=
  m.filter (fun kv => kv.1 != k) ++ [(k, v)]

/-- The g_map loop of load_font: for each requested character,
`face.glyph_index(ch).unwrap()` — a missing mapping aborts the whole load. -/
def build_gmap (face : Face) : List Char → List (ℕ × ℕ) → Option (List (ℕ × ℕ))
| [], m => some m
| ch :: rest, m =>
  match face.glyph_index ch with
  | none => none
  | some id => build_gmap face rest (natMapInsert m ch.toNat id)

/-- One glyph mesh and bounding box: build the outline, and when it exists,
tessellate it at tolerance 0.5 with prim_id = the glyph id, mapping vertices
and bounding box through translate(0, -glyph_y_origin) scaled by 1/em. -/
def glyph_mesh (tess : FontTess) (face : Face) (scale : ℚ) (id : ℕ) :
    VertexBuffers × (ℚ × ℚ × ℚ × ℚ) :=
  match Builder.build Builder.new face id with
  | none => (⟨[], []⟩, (0, 0, 0, 0))
  | some b =>
    let transform := (Transform.new_translate 0
      (-(((face.glyph_y_origin id).getD 0 : ℤ) : ℚ))).scale scale scale
    let raw := tess b.vec ⟨1 / 2⟩
    let mesh := buildMesh raw id transform
    let p1 := transform.apply (b.bbbox.x_min : ℚ) (b.bbbox.y_min : ℚ)
    let p2 := transform.apply (b.bbbox.x_max : ℚ) (b.bbbox.y_max : ℚ)
    (mesh, (p1.1, p1.2, p2.1, p2.2))

/-- The per-glyph loop of load_font: raster- or svg-image-backed glyphs
panic (modelled as failure of the load), and the horizontal advance is
unwrapped. -/
def build_glyphs (tess : FontTess) (face : Face) (scale : ℚ) :
    List (ℕ × ℕ) → List (ℕ × Glyph) → Option (List (ℕ × Glyph))
| [], gs => some gs
| (cp, id) :: rest, gs =>
  if face.glyph_raster_image id then none
  else if face.glyph_svg_image id then none
  else
    match face.glyph_hor_advance id with
    | none => none
    | some adv =>
      let g := glyph_mesh tess face scale id
      build_glyphs tess face scale rest
        (gs ++ [(cp, { advance := (adv : ℚ) * scale, bbox := g.2, outline := g.1 })])

/-- src/ttfload.rs `load_font` from the parsed face (file reading and ttf
parsing are the black-box front end); `filename` stands for the file-name
string used as the Font name.  Panics are modelled as `none`. -/
def load_font (tess : FontTess) (face : Face) (filename : String)
    (symbols : List Char) : Option Font :=
  let scale : ℚ := FONT_SIZE / (face.units_per_em : ℚ)
  match build_gmap face symbols [] with
  | none => none
  | some g_map =>
    match build_glyphs tess face scale g_map [] with
    | none => none
    | some glyphs =>
      some { name := filename
             ascender := (face.ascender : ℚ) * scale
             descender := (face.descender : ℚ) * scale
             line_gap := (face.line_gap : ℚ) * scale
             glyph_map := glyphs }

/-- A face whose character map is empty, for the C9 witness. -/
def face0 : Face :=
  { units_per_em := 1000
    glyph_index := fun _ => none
    glyph_raster_image := fun _ => false
    glyph_svg_image := fun _ => false
    outline_glyph := fun _ => none
    glyph_y_origin := fun _ => none
    glyph_hor_advance := fun _ => some 0
    ascender := 800
    descender := -200
    line_gap := 0 }

/-- A trivial glyph tessellator oracle. -/
def fontTess0 : FontTess := fun _ _ => ⟨[], []⟩

/-! ## Theorems -/

/-- Claim C5: resolving a flat-colour paint with byte channels (r, g, b) and
opacity o produces a RenderablePath whose background colour is
[r/256, g/256, b/256, o]; in particular colour (255, 0, 0) with opacity 1
yields channels (255/256, 0, 0) and alpha 1. -/
theorem c5_flat_color_normalization (gradients : GradMap) (size : ℕ × ℕ)
    (o : ℚ) (mesh : VertexBuffers) (col : Color) (t : Transform) :
    (primitive_from_paint gradients size o mesh (Paint.Color col) t).bgcolor
      = ((col.red : ℚ) / 256, (col.green : ℚ) / 256, (col.blue : ℚ) / 256, o)
    ∧ (primitive_from_paint gradients (1, 1) 1 mesh0 (Paint.Color ⟨255, 0, 0⟩) t).bgcolor
      = (255 / 256, 0, 0, 1) := by
  constructor
  · rfl
  · simp [primitive_from_paint, RenderablePath.from_color]

/-- Claim C6: resolving a gradient-reference paint whose identifier is not in
the gradient dictionary returns (totally, no error) the default
RenderablePath: background colour [1,1,1,1], zero gradient stops, and no
stop lists or start/end points. -/
theorem c6_missing_gradient_fallback (gradients : GradMap) (size : ℕ × ℕ)
    (o : ℚ) (mesh : VertexBuffers) (link : String) (t : Transform)
    (h : mapGet gradients link = none) :
    primitive_from_paint gradients size o mesh (Paint.Link link) t
        = RenderablePath.new size mesh
    ∧ (primitive_from_paint gradients size o mesh (Paint.Link link) t).bgcolor = (1, 1, 1, 1)
    ∧ (primitive_from_paint gradients size o mesh (Paint.Link link) t).gradient_stops = 0
    ∧ (primitive_from_paint gradients size o mesh (Paint.Link link) t).gradient_pos = none
    ∧ (primitive_from_paint gradients size o mesh (Paint.Link link) t).gradient_colors = none
    ∧ (primitive_from_paint gradients size o mesh (Paint.Link link) t).gradient_start = none
    ∧ (primitive_from_paint gradients size o mesh (Paint.Link link) t).gradient_end = none := by
  simp [primitive_from_paint, h, RenderablePath.new]

/-- Witness for C6 at a concrete empty dictionary. -/
theorem c6_missing_gradient_fallback_witness :
    mapGet [] "grad0" = none
    ∧ primitive_from_paint [] (1, 1) 1 mesh0 (Paint.Link "grad0") Transform.default
        = RenderablePath.new (1, 1) mesh0 := by
  refine ⟨rfl, ?_⟩
  exact (c6_missing_gradient_fallback [] (1, 1) 1 mesh0 "grad0" Transform.default rfl).1

/-- Claim C7: resolving a gradient-reference paint whose identifier is found
produces a RenderablePath whose start/end points are the gradient's local
control points mapped through the gradient's own local transform composed with
the ambient transform, whose stop offset and colour lists are copied in
insertion order with channels divided by 256, and whose background colour is
left at [1,1,1,1]. -/
theorem c7_gradient_resolution (gradients : GradMap) (size : ℕ × ℕ) (o : ℚ)
    (mesh : VertexBuffers) (link : String) (t : Transform) (g : LinearGradient)
    (h : mapGet gradients link = some g) :
    (primitive_from_paint gradients size o mesh (Paint.Link link) t).gradient_start
        = some ((g.transform.append t).apply g.x1 g.y1)
    ∧ (primitive_from_paint gradients size o mesh (Paint.Link link) t).gradient_end
        = some ((g.transform.append t).apply g.x2 g.y2)
    ∧ (primitive_from_paint gradients size o mesh (Paint.Link link) t).gradient_pos
        = some (g.stops.map fun s => s.offset)
    ∧ (primitive_from_paint gradients size o mesh (Paint.Link link) t).gradient_colors
        = some (g.stops.map fun s =>
            ((s.color.red : ℚ) / 256, (s.color.green : ℚ) / 256, (s.color.blue : ℚ) / 256,
              s.opacity))
    ∧ (primitive_from_paint gradients size o mesh (Paint.Link link) t).bgcolor
        = (1, 1, 1, 1) := by
  simp [primitive_from_paint, h, RenderablePath.from_gradient]

/-- Witness for C7 at a concrete singleton dictionary. -/
theorem c7_gradient_resolution_witness :
    mapGet [("g1", grad1)] "g1" = some grad1
    ∧ (primitive_from_paint [("g1", grad1)] (1, 1) 1 mesh0 (Paint.Link "g1")
          Transform.default).gradient_start
        = some ((grad1.transform.append Transform.default).apply grad1.x1 grad1.y1) := by
  refine ⟨rfl, ?_⟩
  exact (c7_gradient_resolution [("g1", grad1)] (1, 1) 1 mesh0 "g1"
    Transform.default grad1 rfl).1

/-- Claim C10: the RenderablePath built from a linear gradient with n stops
has gradient_colors and gradient_pos of full length n, but its
gradient_stops count field stores n reduced mod 256 (u8), so for n > 255 the
count field disagrees with the list lengths. -/
theorem c10_gradient_stop_count_u8 (size : ℕ × ℕ) (g : LinearGradient)
    (mesh : VertexBuffers) (t : Transform) :
    (RenderablePath.from_gradient size g mesh t).gradient_colors.map List.length
        = some g.stops.length
    ∧ (RenderablePath.from_gradient size g mesh t).gradient_pos.map List.length
        = some g.stops.length
    ∧ (RenderablePath.from_gradient size g mesh t).gradient_stops = g.stops.length % 256
    ∧ (255 < g.stops.length →
        (RenderablePath.from_gradient size g mesh t).gradient_stops ≠ g.stops.length) := by
  refine ⟨?_, ?_, rfl, ?_⟩
  · simp [RenderablePath.from_gradient]
  · simp [RenderablePath.from_gradient]
  · intro h
    have hm : g.stops.length % 256 < 256 := Nat.mod_lt _ (by norm_num)
    simp only [RenderablePath.from_gradient]
    omega

/-- Witness for C10: with 256 stops the u8 count field reads 0, disagreeing
with the list length 256. -/
theorem c10_gradient_stop_count_u8_witness :
    255 < gradBig.stops.length
    ∧ (RenderablePath.from_gradient (1, 1) gradBig mesh0 Transform.default).gradient_stops
        ≠ gradBig.stops.length := by
  have hlen : 255 < gradBig.stops.length := by
    simp only [gradBig, List.length_replicate]
    norm_num
  exact ⟨hlen, (c10_gradient_stop_count_u8 (1, 1) gradBig mesh0 Transform.default).2.2.2 hlen⟩

/-- A drawing segment makes one event that is neither Begin nor End, and
leaves the state with needs_end = true. -/
theorem stepSeg_draw (st : ConvState) (d : PathSegment) (hd : isDrawSeg d = true) :
    (stepSeg st d).1.needs_end = true
    ∧ ∃ e, (stepSeg st d).2 = [e] ∧ isBeginEv e = false ∧ isEndEv e = false := by
  cases d with
  | MoveTo x y => simp [isDrawSeg] at hd
  | ClosePath => simp [isDrawSeg] at hd
  | LineTo x y => exact ⟨rfl, PathEvent.Line st.prev (x, y), rfl, rfl, rfl⟩
  | CurveTo x1 y1 x2 y2 x y =>
      exact ⟨rfl, PathEvent.Cubic st.prev (x1, y1) (x2, y2) (x, y), rfl, rfl, rfl⟩

/-- Running a list of drawing segments emits only draw events (no Begin, no
End) and, if the list is nonempty, ends with needs_end = true. -/
theorem run_draws : ∀ (ds : List PathSegment), (∀ s ∈ ds, isDrawSeg s = true) →
    ∀ (st : ConvState) (rest : List PathSegment),
    ∃ evs st2, runSegs st (ds ++ rest) = evs ++ runSegs st2 rest
      ∧ (∀ e ∈ evs, isBeginEv e = false ∧ isEndEv e = false)
      ∧ (ds = [] → st2 = st) ∧ (ds ≠ [] → st2.needs_end = true) := by
  intro ds
  induction ds with
  | nil =>
    intro _ st rest
    exact ⟨[], st, by simp, by simp, fun _ => rfl, by simp⟩
  | cons d ds ih =>
    intro hall st rest
    have hd := hall d (List.mem_cons_self _ _)
    have hall2 : ∀ s ∈ ds, isDrawSeg s = true := fun s hs => hall s (List.mem_cons_of_mem _ hs)
    obtain ⟨hD1, e, he, hbe, hee⟩ := stepSeg_draw st d hd
    obtain ⟨evs, st2, heq, hprop, hnil, hne⟩ := ih hall2 (stepSeg st d).1 rest
    refine ⟨e :: evs, st2, ?_, ?_, ?_, ?_⟩
    · show runSegs st ((d :: ds) ++ rest) = (e :: evs) ++ runSegs st2 rest
      have h0 : runSegs st (d :: (ds ++ rest))
          = (stepSeg st d).2 ++ runSegs (stepSeg st d).1 (ds ++ rest) := rfl
      rw [List.cons_append, h0, he, heq]
      rfl
    · intro x hx
      rcases List.mem_cons.mp hx with h | h
      · subst h; exact ⟨hbe, hee⟩
      · exact hprop x h
    · intro h; simp at h
    · intro _
      by_cases hds : ds = []
      · rw [hnil hds]; exact hD1
      · exact hne hds

/-- Nonempty drawing run: first event split off, final needs_end = true. -/
theorem run_draws_ne (ds : List PathSegment) (hne : ds ≠ [])
    (hall : ∀ s ∈ ds, isDrawSeg s = true) (st : ConvState) (rest : List PathSegment) :
    ∃ e evs st2, runSegs st (ds ++ rest) = e :: (evs ++ runSegs st2 rest)
      ∧ isBeginEv e = false ∧ isEndEv e = false
      ∧ (∀ x ∈ evs, isBeginEv x = false ∧ isEndEv x = false)
      ∧ st2.needs_end = true := by
  obtain ⟨d, ds2, rfl⟩ : ∃ d ds2, ds = d :: ds2 := by
    cases ds with
    | nil => exact absurd rfl hne
    | cons a l => exact ⟨a, l, rfl⟩
  have hd := hall d (List.mem_cons_self _ _)
  have hall2 : ∀ s ∈ ds2, isDrawSeg s = true := fun s hs => hall s (List.mem_cons_of_mem _ hs)
  obtain ⟨hD1, e, he, hbe, hee⟩ := stepSeg_draw st d hd
  obtain ⟨evs, st2, heq, hprop, hnil, hne2⟩ := run_draws ds2 hall2 (stepSeg st d).1 rest
  refine ⟨e, evs, st2, ?_, hbe, hee, hprop, ?_⟩
  · have h0 : runSegs st (d :: (ds2 ++ rest))
        = (stepSeg st d).2 ++ runSegs (stepSeg st d).1 (ds2 ++ rest) := rfl
    rw [List.cons_append, h0, he, heq]
    rfl
  · by_cases hds : ds2 = []
    · rw [hnil hds]; exact hD1
    · exact hne2 hds

/-- countP of a list on which the predicate is everywhere false. -/
theorem countP_zero_of_all {l : List PathEvent} {p : PathEvent → Bool}
    (h : ∀ e ∈ l, p e = false) : l.countP p = 0 :=
  List.countP_eq_zero.mpr (by intro a ha; simp [h a ha])

/-- An event that is not an End has closeFlag false. -/
theorem closeFlag_of_not_end {e : PathEvent} (h : isEndEv e = false) :
    closeFlag e = false := by
  cases e <;> simp_all [isEndEv, closeFlag]

/-- Prepending non-Begin events preserves the no-adjacent-Begins chain. -/
theorem chain_append_nonbegin : ∀ (l1 : List PathEvent),
    (∀ e ∈ l1, isBeginEv e = false) → ∀ {l2 : List PathEvent}, noAdjBegins l2 →
    noAdjBegins (l1 ++ l2) := by
  intro l1
  induction l1 with
  | nil => intro _ _ h2; simpa using h2
  | cons a l ih =>
    intro h1 l2 h2
    have ha : isBeginEv a = false := h1 a (List.mem_cons_self _ _)
    have hl : ∀ e ∈ l, isBeginEv e = false := fun e he => h1 e (List.mem_cons_of_mem _ he)
    exact List.chain'_cons'.mpr ⟨fun y _ => Or.inl ha, ih hl h2⟩

/-- Constructor evaluation lemmas for the event predicates. -/
@[simp] theorem isBeginEv_Begin (p : Pt) : isBeginEv (PathEvent.Begin p) = true := rfl

@[simp] theorem isBeginEv_Line (a b : Pt) : isBeginEv (PathEvent.Line a b) = false := rfl

@[simp] theorem isBeginEv_Quadratic (a b c : Pt) :
    isBeginEv (PathEvent.Quadratic a b c) = false := rfl

@[simp] theorem isBeginEv_Cubic (a b c d : Pt) :
    isBeginEv (PathEvent.Cubic a b c d) = false := rfl

@[simp] theorem isBeginEv_End (a b : Pt) (c : Bool) :
    isBeginEv (PathEvent.End a b c) = false := rfl

@[simp] theorem isEndEv_Begin (p : Pt) : isEndEv (PathEvent.Begin p) = false := rfl

@[simp] theorem isEndEv_Line (a b : Pt) : isEndEv (PathEvent.Line a b) = false := rfl

@[simp] theorem isEndEv_Quadratic (a b c : Pt) :
    isEndEv (PathEvent.Quadratic a b c) = false := rfl

@[simp] theorem isEndEv_Cubic (a b c d : Pt) :
    isEndEv (PathEvent.Cubic a b c d) = false := rfl

@[simp] theorem isEndEv_End (a b : Pt) (c : Bool) :
    isEndEv (PathEvent.End a b c) = true := rfl

@[simp] theorem closeFlag_Begin (p : Pt) : closeFlag (PathEvent.Begin p) = false := rfl

@[simp] theorem closeFlag_End (a b : Pt) (c : Bool) :
    closeFlag (PathEvent.End a b c) = c := rfl

/-- Running a nonempty drawing run followed by well-formed blocks, from any
state: the output has one Begin per block, one End per block plus the final
flush End, only open Ends, no adjacent Begins, and a non-Begin head. -/
theorem runSegs_draws_blocks :
    ∀ (bs : List Block), WFBlocks bs →
    ∀ (ds : List PathSegment), ds ≠ [] → (∀ s ∈ ds, isDrawSeg s = true) →
    ∀ (st : ConvState),
    countBegins (runSegs st (ds ++ flattenBlocks bs)) = bs.length
    ∧ countEnds (runSegs st (ds ++ flattenBlocks bs)) = bs.length + 1
    ∧ (∀ e ∈ runSegs st (ds ++ flattenBlocks bs), closeFlag e = false)
    ∧ noAdjBegins (runSegs st (ds ++ flattenBlocks bs))
    ∧ (∀ e ∈ (runSegs st (ds ++ flattenBlocks bs)).head?, isBeginEv e = false) := by
  intro bs
  induction bs with
  | nil =>
    intro _ ds hne hall st
    obtain ⟨e, evs, st2, heq, hbe, hee, hprop, hst2⟩ :=
      run_draws_ne ds hne hall st (flattenBlocks [])
    have htail : runSegs st2 (flattenBlocks [])
        = [PathEvent.End st2.prev st2.first false] := by
      simp [flattenBlocks, runSegs, flushConv, hst2]
    rw [heq, htail]
    have hB0 : List.countP isBeginEv evs = 0 :=
      countP_zero_of_all (fun x hx => (hprop x hx).1)
    have hE0 : List.countP isEndEv evs = 0 :=
      countP_zero_of_all (fun x hx => (hprop x hx).2)
    refine ⟨?_, ?_, ?_, ?_, ?_⟩
    · simp [countBegins, List.countP_cons, List.countP_append, hbe, hB0]
    · simp [countEnds, List.countP_cons, List.countP_append, hee, hE0]
    · intro x hx
      rcases List.mem_cons.mp hx with h | hx2
      · subst h; exact closeFlag_of_not_end hee
      · rcases List.mem_append.mp hx2 with h | hx3
        · exact closeFlag_of_not_end (hprop x h).2
        · rcases List.mem_cons.mp hx3 with h | hx4
          · subst h; rfl
          · simp at hx4
    · refine List.chain'_cons'.mpr ⟨fun y _ => Or.inl hbe, ?_⟩
      exact chain_append_nonbegin evs (fun x hx => (hprop x hx).1)
        (List.chain'_singleton _)
    · intro y hy
      simp at hy
      subst hy
      exact hbe
  | cons b bs ih =>
    intro hwf ds hne hall st
    obtain ⟨p, dsb⟩ := b
    have hwfb := hwf (p, dsb) (List.mem_cons_self _ _)
    have hwf2 : WFBlocks bs := fun x hx => hwf x (List.mem_cons_of_mem _ hx)
    obtain ⟨e, evs, st2, heq, hbe, hee, hprop, hst2⟩ :=
      run_draws_ne ds hne hall st (flattenBlocks ((p, dsb) :: bs))
    have hmove : runSegs st2 (flattenBlocks ((p, dsb) :: bs))
        = PathEvent.End st2.prev st2.first false :: PathEvent.Begin p
          :: runSegs ⟨p, p, false⟩ (dsb ++ flattenBlocks bs) := by
      simp [flattenBlocks, runSegs, stepSeg, hst2]
    obtain ⟨ihB, ihE, ihC, ihN, ihH⟩ :=
      ih hwf2 dsb hwfb.1 hwfb.2 ⟨p, p, false⟩
    rw [heq, hmove]
    have hB0 : List.countP isBeginEv evs = 0 :=
      countP_zero_of_all (fun x hx => (hprop x hx).1)
    have hE0 : List.countP isEndEv evs = 0 :=
      countP_zero_of_all (fun x hx => (hprop x hx).2)
    refine ⟨?_, ?_, ?_, ?_, ?_⟩
    · simp only [countBegins] at ihB ⊢
      simp [List.countP_cons, List.countP_append, hbe, hB0, ihB]
    · simp only [countEnds] at ihE ⊢
      simp only [List.countP_cons, List.countP_append, hee, hE0]
      simp
      omega
    · intro x hx
      rcases List.mem_cons.mp hx with h | hx2
      · subst h; exact closeFlag_of_not_end hee
      · rcases List.mem_append.mp hx2 with h | hx3
        · exact closeFlag_of_not_end (hprop x h).2
        · rcases List.mem_cons.mp hx3 with h | hx4
          · subst h; rfl
          · rcases List.mem_cons.mp hx4 with h | hx5
            · subst h; rfl
            · exact ihC x hx5
    · refine List.chain'_cons'.mpr ⟨fun y _ => Or.inl hbe, ?_⟩
      refine chain_append_nonbegin evs (fun x hx => (hprop x hx).1) ?_
      refine List.chain'_cons'.mpr ⟨fun y _ => Or.inl rfl, ?_⟩
      exact List.chain'_cons'.mpr ⟨fun y hy => Or.inr (ihH y hy), ihN⟩
    · intro y hy
      simp at hy
      subst hy
      exact hbe

/-- The flattened stream of well-formed blocks has one MoveTo per block and
no ClosePath. -/
theorem flatten_counts : ∀ (bs : List Block), WFBlocks bs →
    (flattenBlocks bs).countP isMoveSeg = bs.length
    ∧ (flattenBlocks bs).countP isCloseSeg = 0 := by
  intro bs
  induction bs with
  | nil => intro _; simp [flattenBlocks]
  | cons b bs ih =>
    intro hwf
    obtain ⟨p, ds⟩ := b
    have hwfb := hwf (p, ds) (List.mem_cons_self _ _)
    have hwf2 : WFBlocks bs := fun x hx => hwf x (List.mem_cons_of_mem _ hx)
    have hm : ds.countP isMoveSeg = 0 := by
      refine List.countP_eq_zero.mpr ?_
      intro s hs
      have := hwfb.2 s hs
      cases s <;> simp_all [isDrawSeg, isMoveSeg]
    have hc : ds.countP isCloseSeg = 0 := by
      refine List.countP_eq_zero.mpr ?_
      intro s hs
      have := hwfb.2 s hs
      cases s <;> simp_all [isDrawSeg, isCloseSeg]
    obtain ⟨ih1, ih2⟩ := ih hwf2
    constructor <;>
      simp [flattenBlocks, List.countP_cons, List.countP_append, hm, hc, ih1, ih2,
        isMoveSeg, isCloseSeg]

/-- Claim C4 (amended): for every input segment stream consisting of subpath
blocks — each a MoveTo followed by at least one drawing (Line/Curve) segment,
with no ClosePath anywhere — the normaliser output contains exactly N Begin
events and N End events, where N is the number of MoveTo commands in the
stream; every End carries close = false, and no two Begin events are adjacent.
(The restriction to such streams is forced by the counterexample: a stream
with two consecutive MoveTos gets 2 Begins but only 1 End.) -/
theorem c4_block_stream_normalization (bs : List Block) (hwf : WFBlocks bs) :
    (flattenBlocks bs).countP isMoveSeg = bs.length
    ∧ (flattenBlocks bs).countP isCloseSeg = 0
    ∧ countBegins (convert_path (flattenBlocks bs)) = bs.length
    ∧ countEnds (convert_path (flattenBlocks bs)) = bs.length
    ∧ (∀ e ∈ convert_path (flattenBlocks bs), closeFlag e = false)
    ∧ noAdjBegins (convert_path (flattenBlocks bs)) := by
  obtain ⟨hm, hc⟩ := flatten_counts bs hwf
  refine ⟨hm, hc, ?_⟩
  cases bs with
  | nil =>
    refine ⟨rfl, rfl, ?_, ?_⟩
    · intro e he
      simp [convert_path, flattenBlocks, runSegs, flushConv] at he
    · simp [noAdjBegins, convert_path, flattenBlocks, runSegs, flushConv]
  | cons b bs2 =>
    obtain ⟨p, dsb⟩ := b
    have hwfb := hwf (p, dsb) (List.mem_cons_self _ _)
    have hwf2 : WFBlocks bs2 := fun x hx => hwf x (List.mem_cons_of_mem _ hx)
    have h0 : convert_path (flattenBlocks ((p, dsb) :: bs2))
        = PathEvent.Begin p
          :: runSegs ⟨(0, 0), p, true⟩ (dsb ++ flattenBlocks bs2) := by
      simp [convert_path, flattenBlocks, runSegs, stepSeg]
    obtain ⟨hB, hE, hC, hN, hH⟩ :=
      runSegs_draws_blocks bs2 hwf2 dsb hwfb.1 hwfb.2 ⟨(0, 0), p, true⟩
    rw [h0]
    refine ⟨?_, ?_, ?_, ?_⟩
    · simp only [countBegins] at hB ⊢
      simp only [List.countP_cons]
      simp at hB ⊢
      omega
    · simp only [countEnds] at hE ⊢
      simp only [List.countP_cons]
      simp at hE ⊢
      omega
    · intro e he
      rcases List.mem_cons.mp he with h | h2
      · subst h; rfl
      · exact hC e h2
    · exact List.chain'_cons'.mpr ⟨fun y hy => Or.inr (hH y hy), hN⟩

/-- Witness for the amended C4 at a concrete two-block stream. -/
theorem c4_block_stream_normalization_witness :
    WFBlocks c4blocks
    ∧ ((flattenBlocks c4blocks).countP isMoveSeg = c4blocks.length
      ∧ (flattenBlocks c4blocks).countP isCloseSeg = 0
      ∧ countBegins (convert_path (flattenBlocks c4blocks)) = c4blocks.length
      ∧ countEnds (convert_path (flattenBlocks c4blocks)) = c4blocks.length
      ∧ (∀ e ∈ convert_path (flattenBlocks c4blocks), closeFlag e = false)
      ∧ noAdjBegins (convert_path (flattenBlocks c4blocks))) :=
  ⟨by unfold WFBlocks; decide,
    c4_block_stream_normalization c4blocks (by unfold WFBlocks; decide)⟩

/-- Claim C4, as stated over every stream, is false: the stream
[MoveTo (0,0), MoveTo (1,1)] has two MoveTos and no ClosePath, yet the
normaliser emits two Begins and only one End. -/
theorem c4_counterexample :
    ([PathSegment.MoveTo 0 0, PathSegment.MoveTo 1 1].countP isMoveSeg = 2)
    ∧ ([PathSegment.MoveTo 0 0, PathSegment.MoveTo 1 1].countP isCloseSeg = 0)
    ∧ countBegins (convert_path [PathSegment.MoveTo 0 0, PathSegment.MoveTo 1 1]) = 2
    ∧ countEnds (convert_path [PathSegment.MoveTo 0 0, PathSegment.MoveTo 1 1]) ≠ 2 := by
  decide

/-- Claim C2 evaluated on the code: from the initial Builder state, move_to
(1,2) followed by line_to (3,4) emits Line with from = (0,0) — the stale
initial prev — rather than (1,2), because the Idle branch of move_to never
updates prev. -/
theorem c2_move_to_idle_stale_prev :
    ((Builder.new.move_to 1 2).line_to 3 4).vec
      = [PathEvent.Begin (1, 2), PathEvent.Line (0, 0) (3, 4)]
    ∧ (((0 : ℚ), (0 : ℚ)) : Pt) ≠ ((1 : ℚ), (2 : ℚ)) := by
  exact ⟨rfl, by decide⟩

/-- The Path arm never touches the transform stack. -/
theorem path_start_transforms (tess : Tessellators) (st : LoadState) (p : SvgPath) :
    (path_start tess st p).transforms = st.transforms := by
  unfold path_start
  cases hf : p.fill
  · rfl
  · cases hs : p.stroke
    · rfl
    · rfl

/-- A Start edge grows the transform stack by pushInc of the node kind. -/
theorem stepEdge_start_transforms_len (tess : Tessellators) (st : LoadState) (k : NodeKind) :
    (stepEdge tess st (NodeEdge.Start k)).transforms.length
      = st.transforms.length + pushInc k := by
  cases k <;> simp [stepEdge, stepKind, pushInc, path_start_transforms]

/-- An End edge shrinks the transform stack by groupDec of the node kind. -/
theorem stepEdge_end_transforms_len (tess : Tessellators) (st : LoadState) (k : NodeKind) :
    (stepEdge tess st (NodeEdge.End k)).transforms.length
      = st.transforms.length - groupDec k := by
  cases k <;> simp [stepEdge, stepKind, groupDec, List.length_dropLast]

mutual

/-- Net transform-stack effect of traversing one node: group pushes are
matched by their pops, while each Svg node leaves one extra transform. -/
theorem stack_len_node (tess : Tessellators) : ∀ (st : LoadState) (n : SvgNode),
    (List.foldl (stepEdge tess) st (traverseEdges n)).transforms.length
      = st.transforms.length + countSvgNode n
  | st, .mk k cs => by
    have h1 : traverseEdges (SvgNode.mk k cs)
        = NodeEdge.Start k :: (traverseForest cs ++ [NodeEdge.End k]) := rfl
    rw [h1, List.foldl_cons, List.foldl_append]
    simp only [List.foldl_cons, List.foldl_nil]
    have h2 := stack_len_forest tess (stepEdge tess st (NodeEdge.Start k)) cs
    have h3 := stepEdge_start_transforms_len tess st k
    have h4 := stepEdge_end_transforms_len tess
      (List.foldl (stepEdge tess) (stepEdge tess st (NodeEdge.Start k)) (traverseForest cs)) k
    rw [h4, h2, h3]
    have h5 : countSvgNode (SvgNode.mk k cs) = svgInc k + countSvgForest cs := rfl
    rw [h5]
    cases k
    all_goals simp only [pushInc, groupDec, svgInc]
    all_goals omega

/-- Net transform-stack effect of traversing a sibling list. -/
theorem stack_len_forest (tess : Tessellators) : ∀ (st : LoadState) (f : SvgForest),
    (List.foldl (stepEdge tess) st (traverseForest f)).transforms.length
      = st.transforms.length + countSvgForest f
  | st, .nil => by simp [traverseForest, countSvgForest, List.foldl_nil]
  | st, .cons n f => by
    have h1 : traverseForest (SvgForest.cons n f) = traverseEdges n ++ traverseForest f := rfl
    rw [h1, List.foldl_append]
    rw [stack_len_forest tess (List.foldl (stepEdge tess) st (traverseEdges n)) f]
    rw [stack_len_node tess st n]
    have h2 : countSvgForest (SvgForest.cons n f) = countSvgNode n + countSvgForest f := rfl
    rw [h2]
    omega

end

/-- Claim C3 as stated is false on the code: for a document consisting of a
single Svg (viewport) root, the transform stack does not return to its
initial depth after the full traversal — the viewport transform pushed on
entering the Svg scope is never popped. -/
theorem c3_transform_stack_counterexample :
    (load_svg_final exTess treeSvgOnly).transforms.length
      ≠ initLoadState.transforms.length := by
  decide

/-- Claim C3 (amended): group transforms are pushed on entering and popped on
leaving their scope (LIFO), but viewport (Svg) transforms are pushed on enter
and never popped, so after the full traversal the transform stack depth
equals its initial depth plus the number of viewport nodes in the document. -/
theorem c3_transform_stack_amended (tess : Tessellators) (root : SvgNode) :
    (load_svg_final tess root).transforms.length = countSvgNode root := by
  have h := stack_len_node tess initLoadState root
  simpa [load_svg_final, initLoadState] using h

/-- Claim C1 evaluated on the code at its failing input: a document with one
path node carrying both a fill (red) and a stroke paint, loaded into an empty
output.  The output has the stroke primitive first and the fill primitive
second, but the vertices of BOTH meshes are tagged with primitive id 0 (the
output-sequence length read before the stroke was appended): the stroke id is
not strictly less than the fill id and the ids are not consecutive. -/
theorem c1_prim_ids_eval :
    (load_svg exTess treeFS).map (fun pr => pr.vertices.vertices.map (fun v => v.prim_id))
      = [[0, 0], [0, 0, 0]] := by
  rfl

/-- Claim C8: a path node with no fill paint appends nothing to the output —
both its Start edge and its End edge leave the whole traversal state
untouched, whatever stroke paint the node has. -/
theorem c8_no_fill_skips_node (tess : Tessellators) (st : LoadState) (p : SvgPath)
    (h : p.fill = none) :
    stepEdge tess st (NodeEdge.Start (NodeKind.Path p)) = st
    ∧ stepEdge tess st (NodeEdge.End (NodeKind.Path p)) = st := by
  constructor
  · show stepKind tess st true (NodeKind.Path p) = st
    simp [stepKind, path_start, h]
  · rfl

/-- Witness for C8 at a concrete stroke-only path. -/
theorem c8_no_fill_skips_node_witness :
    pathStrokeOnly.fill = none
    ∧ pathStrokeOnly.stroke ≠ none
    ∧ stepEdge exTess initLoadState (NodeEdge.Start (NodeKind.Path pathStrokeOnly))
        = initLoadState
    ∧ stepEdge exTess initLoadState (NodeEdge.End (NodeKind.Path pathStrokeOnly))
        = initLoadState := by
  refine ⟨rfl, by simp [pathStrokeOnly], ?_, ?_⟩
  · exact (c8_no_fill_skips_node exTess initLoadState pathStrokeOnly rfl).1
  · exact (c8_no_fill_skips_node exTess initLoadState pathStrokeOnly rfl).2

/-- The g_map loop fails whenever any requested character is unmapped. -/
theorem build_gmap_none (face : Face) :
    ∀ (symbols : List Char) (acc : List (ℕ × ℕ)) (ch : Char),
    ch ∈ symbols → face.glyph_index ch = none →
    build_gmap face symbols acc = none := by
  intro symbols
  induction symbols with
  | nil => intro acc ch h _; simp at h
  | cons c rest ih =>
    intro acc ch hmem hnone
    rcases List.mem_cons.mp hmem with h | h
    · subst h
      simp [build_gmap, hnone]
    · cases hc : face.glyph_index c
      · simp [build_gmap, hc]
      · simp only [build_gmap, hc]
        exact ih _ ch h hnone

/-- Claim C9: if any requested character has no mapping in the font's
character map, the whole font load fails and returns no Font record. -/
theorem c9_missing_char_fails (tess : FontTess) (face : Face) (filename : String)
    (symbols : List Char) (ch : Char) (hmem : ch ∈ symbols)
    (hnone : face.glyph_index ch = none) :
    load_font tess face filename symbols = none := by
  have h := build_gmap_none face symbols [] ch hmem hnone
  simp [load_font, h]

/-- Witness for C9 at a concrete empty character map. -/
theorem c9_missing_char_fails_witness :
    ('a' ∈ ['a'])
    ∧ face0.glyph_index 'a' = none
    ∧ load_font fontTess0 face0 "font.ttf" ['a'] = none := by
  refine ⟨by simp, rfl, ?_⟩
  exact c9_missing_char_fails fontTess0 face0 "font.ttf" ['a'] 'a' (by simp) rfl
